import Mathlib

/-!
Verification of the vigilant-python SDK ingestion and dispatch pipeline.

The development shallowly embeds the parts of the source that the checked
properties are about:

* `vigilant/metric_collector.py` — metric aggregation: per-interval buckets,
  counter/gauge/histogram folding, series identifiers, interval truncation,
  sending and cleanup of buckets;
* `vigilant/metric_sender.py` and `vigilant/metric_batcher.py` — classification
  of HTTP send outcomes;
* `vigilant_sdk/attributes.py` and `vigilant/context.py` — the task-scoped
  attribute store and the attribute merge performed on every dispatched log;
* `vigilant_sdk/batcher.py` — the producer-facing `add` operation.

Python floats are modelled as exact rationals (`Rat`), Python strings as Lean
`String` (both compare lexicographically by code point), Python `datetime`
values as total microseconds since the Unix epoch (`Int`), and Python dicts as
association lists in insertion order with unique keys.
-/

namespace VigilantSpec

/-! ## Association lists: a model of Python dicts

Python dicts iterate in insertion order.  Assignment `d[k] = v` replaces the
value of an existing key in place and appends a fresh key at the end;
`d.get(k)` returns the value of the key if present. -/

/-- Lookup in a Python dict: the value stored at key `k`, if any. -/
def alist_get {κ α : Type} [DecidableEq κ] (k : κ) : List (κ × α) → Option α
  | [] => Option.none
  | (a, b) :: rest => if a = k then Option.some b else alist_get k rest

/-- Assignment `d[k] = v` in a Python dict: replace the value of an existing
key in place, otherwise append the new key at the end. -/
def alist_set {κ α : Type} [DecidableEq κ] (k : κ) (v : α) : List (κ × α) → List (κ × α)
  | [] => [(k, v)]
  | (a, b) :: rest => if a = k then (k, v) :: rest else (a, b) :: alist_set k v rest

/-- Deletion `del d[k]` in a Python dict. -/
def alist_del {κ α : Type} [DecidableEq κ] (k : κ) (d : List (κ × α)) : List (κ × α) :=
  d.filter (fun p => !decide (p.1 = k))

/-- Python `d1.update(d2)` (equally the dict literal merging `d1` then `d2`):
every entry of `d2` is assigned into `d1` in order. -/
def dict_update {κ α : Type} [DecidableEq κ] (d1 d2 : List (κ × α)) : List (κ × α) :=
  d2.foldl (fun acc p => alist_set p.1 p.2 acc) d1

/-- A Python dict never stores the same key twice. -/
def alist_nodup {κ α : Type} (d : List (κ × α)) : Prop := (d.map Prod.fst).Nodup

instance alist_nodup_decidable {κ α : Type} [DecidableEq κ] (d : List (κ × α)) :
    Decidable (alist_nodup d) :=
  inferInstanceAs (Decidable ((d.map Prod.fst).Nodup))

theorem alist_get_set_self {κ α : Type} [DecidableEq κ] (k : κ) (v : α)
    (d : List (κ × α)) : alist_get k (alist_set k v d) = Option.some v := by
  induction d with
  | nil => simp [alist_get, alist_set]
  | cons p rest ih =>
    obtain ⟨a, b⟩ := p
    by_cases h : a = k
    · simp [alist_set, h, alist_get]
    · simp [alist_set, h, alist_get, ih]

theorem alist_get_set_ne {κ α : Type} [DecidableEq κ] {k k' : κ} (v : α)
    (d : List (κ × α)) (h : k' ≠ k) :
    alist_get k' (alist_set k v d) = alist_get k' d := by
  induction d with
  | nil => simp [alist_get, alist_set, Ne.symm h]
  | cons p rest ih =>
    obtain ⟨a, b⟩ := p
    by_cases ha : a = k
    · subst ha
      simp [alist_set, alist_get, Ne.symm h, h]
    · by_cases ha2 : a = k'
      · simp [alist_set, ha, alist_get, ha2, h]
      · simp [alist_set, ha, alist_get, ha2, ih]

theorem alist_get_eq_none_iff {κ α : Type} [DecidableEq κ] (k : κ)
    (d : List (κ × α)) : alist_get k d = Option.none ↔ ∀ p ∈ d, p.1 ≠ k := by
  induction d with
  | nil => simp [alist_get]
  | cons p rest ih =>
    obtain ⟨a, b⟩ := p
    by_cases h : a = k
    · simp [alist_get, h]
    · simp [alist_get, h, ih]

theorem alist_get_mem {κ α : Type} [DecidableEq κ] {k : κ} {v : α}
    {d : List (κ × α)} (h : alist_get k d = Option.some v) : (k, v) ∈ d := by
  induction d with
  | nil => simp [alist_get] at h
  | cons p rest ih =>
    obtain ⟨a, b⟩ := p
    by_cases ha : a = k
    · subst ha
      have hb : b = v := by simpa [alist_get] using h
      subst hb
      exact List.mem_cons_self _ _
    · simp only [alist_get, ha, if_false, if_neg ha] at h
      exact List.mem_cons_of_mem _ (ih h)

theorem alist_get_filter_none {κ α : Type} [DecidableEq κ] (k : κ)
    (d : List (κ × α)) (pred : κ × α → Bool)
    (h : alist_get k d = Option.none) :
    alist_get k (d.filter pred) = Option.none := by
  rw [alist_get_eq_none_iff] at h ⊢
  intro p hp
  exact h p (List.mem_of_mem_filter hp)

theorem alist_get_del_self {κ α : Type} [DecidableEq κ] (k : κ)
    (d : List (κ × α)) : alist_get k (alist_del k d) = Option.none := by
  rw [alist_get_eq_none_iff]
  intro p hp
  have := List.of_mem_filter hp
  simpa using this

theorem alist_set_keys {κ α : Type} [DecidableEq κ] (k : κ) (v : α)
    (d : List (κ × α)) :
    (alist_set k v d).map Prod.fst = d.map Prod.fst ∨
      (k ∉ d.map Prod.fst ∧
        (alist_set k v d).map Prod.fst = d.map Prod.fst ++ [k]) := by
  induction d with
  | nil => right; exact ⟨by simp, by simp [alist_set]⟩
  | cons p rest ih =>
    obtain ⟨a, b⟩ := p
    by_cases h : a = k
    · left; simp [alist_set, h]
    · rcases ih with ih | ih
      · left; simp [alist_set, h, ih]
      · right
        refine ⟨?_, by simp [alist_set, h, ih.2]⟩
        simp only [List.map_cons, List.mem_cons]
        rintro (hm | hm)
        · exact h hm.symm
        · exact ih.1 hm

theorem alist_nodup_set {κ α : Type} [DecidableEq κ] (k : κ) (v : α)
    {d : List (κ × α)} (h : alist_nodup d) : alist_nodup (alist_set k v d) := by
  unfold alist_nodup at h ⊢
  rcases alist_set_keys k v d with hk | hk
  · rw [hk]; exact h
  · rw [hk.2, List.nodup_append]
    refine ⟨h, List.nodup_singleton k, ?_⟩
    intro x hx hxk
    simp only [List.mem_singleton] at hxk
    subst hxk
    exact hk.1 hx

theorem alist_nodup_update {κ α : Type} [DecidableEq κ] {d1 : List (κ × α)}
    (d2 : List (κ × α)) (h : alist_nodup d1) : alist_nodup (dict_update d1 d2) := by
  induction d2 generalizing d1 with
  | nil => exact h
  | cons p rest ih => exact ih (alist_nodup_set p.1 p.2 h)

theorem alist_get_update {κ α : Type} [DecidableEq κ] (k : κ)
    (d1 : List (κ × α)) {d2 : List (κ × α)} (h2 : alist_nodup d2) :
    alist_get k (dict_update d1 d2) =
      (alist_get k d2).elim (alist_get k d1) Option.some := by
  induction d2 generalizing d1 with
  | nil => simp [dict_update, alist_get]
  | cons p rest ih =>
    obtain ⟨a, b⟩ := p
    unfold alist_nodup at h2
    simp only [List.map_cons, List.nodup_cons] at h2
    have hrest : alist_nodup rest := h2.2
    have step : dict_update d1 ((a, b) :: rest) = dict_update (alist_set a b d1) rest := by
      simp [dict_update]
    rw [step, ih _ hrest]
    by_cases hk : a = k
    · subst hk
      have hnone : alist_get a rest = Option.none := by
        rw [alist_get_eq_none_iff]
        intro q hq hcon
        exact h2.1 (by
          rw [← hcon]
          exact List.mem_map_of_mem Prod.fst hq)
      rw [hnone]
      simp [alist_get, alist_get_set_self]
    · cases hr : alist_get k rest with
      | some v => simp [alist_get, hk, hr]
      | none =>
        simp [alist_get, hk, hr, alist_get_set_ne _ _ (fun hh => hk hh.symm)]

theorem alist_get_filter {κ α : Type} [DecidableEq κ] (k : κ)
    {d : List (κ × α)} (pred : κ × α → Bool) (h : alist_nodup d) :
    alist_get k (d.filter pred) =
      (alist_get k d).bind
        (fun v => if pred (k, v) then Option.some v else Option.none) := by
  induction d with
  | nil => simp [alist_get]
  | cons p rest ih =>
    obtain ⟨a, b⟩ := p
    unfold alist_nodup at h
    simp only [List.map_cons, List.nodup_cons] at h
    have hrest : alist_nodup rest := h.2
    by_cases hk : a = k
    · subst hk
      have hnone : alist_get a rest = Option.none := by
        rw [alist_get_eq_none_iff]
        intro q hq hcon
        exact h.1 (by
          rw [← hcon]
          exact List.mem_map_of_mem Prod.fst hq)
      by_cases hpred : pred (a, b) = true
      · simp only [List.filter_cons, hpred, if_true]
        simp [alist_get, hpred]
      · simp only [List.filter_cons, hpred, Bool.false_eq_true, if_false]
        rw [ih hrest, hnone]
        simp [alist_get, hpred, hnone]
    · by_cases hpred : pred (a, b) = true
      · simp only [List.filter_cons, hpred, if_true]
        simp only [alist_get, hk, if_false, if_neg hk]
        exact ih hrest
      · simp only [List.filter_cons, hpred, Bool.false_eq_true, if_false]
        simp only [alist_get, hk, if_false, if_neg hk]
        exact ih hrest

/-! ## Series identifiers

`_generate_metric_identifier` in `vigilant/metric_collector.py` builds the
series identifier from the metric name and the tag dict: the name alone when
the tags are empty, otherwise the name followed by the underscore-join of
`k + "_" + v` over `sorted(tags.items())`.  Python sorts the items as (key,
value) pairs, lexicographically by code point. -/

/-- A metric tag map: a Python dict from string to string, in insertion
order. -/
abbrev Tags := List (String × String)

/-- Metric values: Python floats, modelled as exact rationals. -/
abbrev Val := Rat

/-- Python string comparison is lexicographic on code points, with a proper
prefix comparing below its extensions. -/
def pylt : List Char → List Char → Bool
  | _, [] => false
  | [], _ :: _ => true
  | c :: cs, d :: ds =>
    if c.toNat < d.toNat then true
    else if d.toNat < c.toNat then false
    else pylt cs ds

theorem pylt_asymm : ∀ a b : List Char, pylt a b = true → pylt b a = false := by
  intro a
  induction a with
  | nil =>
    intro b h
    cases b with
    | nil => simp [pylt] at h
    | cons d ds => simp [pylt]
  | cons c cs ih =>
    intro b h
    cases b with
    | nil => simp [pylt] at h
    | cons d ds =>
      simp only [pylt] at h ⊢
      by_cases h1 : c.toNat < d.toNat
      · have h2 : ¬ d.toNat < c.toNat := by omega
        simp [h1, h2]
      · by_cases h2 : d.toNat < c.toNat
        · simp [h1, h2] at h
        · simp only [h1, h2, if_false] at h
          simp only [h1, h2, if_false]
          exact ih ds h

theorem pylt_irrefl (a : List Char) : pylt a a = false := by
  by_cases h : pylt a a = true
  · have := pylt_asymm a a h
    rw [this] at h
    exact absurd h (by simp)
  · simpa using h

theorem char_toNat_inj {c d : Char} (h : c.toNat = d.toNat) : c = d := by
  apply Char.ext
  exact UInt32.ext h

theorem pylt_conn : ∀ a b : List Char,
    pylt a b = false → pylt b a = false → a = b := by
  intro a
  induction a with
  | nil =>
    intro b h1 h2
    cases b with
    | nil => rfl
    | cons d ds => simp [pylt] at h1
  | cons c cs ih =>
    intro b h1 h2
    cases b with
    | nil => simp [pylt] at h2
    | cons d ds =>
      simp only [pylt] at h1 h2
      by_cases hcd : c.toNat < d.toNat
      · simp [hcd] at h1
      · by_cases hdc : d.toNat < c.toNat
        · simp [hdc, hcd] at h2
        · simp only [hcd, hdc, if_false] at h1 h2
          have hc : c = d := char_toNat_inj (by omega)
          rw [hc, ih ds h1 h2]

theorem pylt_trans : ∀ a b c : List Char,
    pylt a b = true → pylt b c = true → pylt a c = true := by
  intro a
  induction a with
  | nil =>
    intro b c h1 h2
    cases b with
    | nil => simp [pylt] at h1
    | cons d ds =>
      cases c with
      | nil => simp [pylt] at h2
      | cons e es => simp [pylt]
  | cons x xs ih =>
    intro b c h1 h2
    cases b with
    | nil => simp [pylt] at h1
    | cons d ds =>
      cases c with
      | nil => simp [pylt] at h2
      | cons e es =>
        simp only [pylt] at h1 h2 ⊢
        by_cases hxd : x.toNat < d.toNat
        · by_cases hde : d.toNat < e.toNat
          · simp [show x.toNat < e.toNat by omega]
          · by_cases hed : e.toNat < d.toNat
            · simp [hde, hed] at h2
            · simp [show x.toNat < e.toNat by omega]
        · by_cases hdx : d.toNat < x.toNat
          · simp [hxd, hdx] at h1
          · simp only [hxd, hdx, if_false] at h1
            by_cases hde : d.toNat < e.toNat
            · simp [show x.toNat < e.toNat by omega]
            · by_cases hed : e.toNat < d.toNat
              · simp [hde, hed] at h2
              · simp only [hde, hed, if_false] at h2
                have hxe : ¬ x.toNat < e.toNat := by omega
                have hex : ¬ e.toNat < x.toNat := by omega
                simp only [hxe, hex, if_false]
                exact ih ds es h1 h2

theorem pylt_le_trans {u v w : List Char}
    (h1 : pylt v u = false) (h2 : pylt w v = false) : pylt w u = false := by
  by_cases h : pylt w u = true
  · by_cases hvw : pylt u v = true
    · have := pylt_trans w u v h hvw
      rw [this] at h2
      exact absurd h2 (by simp)
    · have huv : u = v := pylt_conn u v (by simpa using hvw) h1
      rw [← huv] at h2
      rw [h2] at h
      exact absurd h (by simp)
  · simpa using h

theorem string_data_inj {a b : String} (h : a.data = b.data) : a = b := by
  cases a
  cases b
  exact congrArg String.mk h

/-- Python string strict comparison `a < b`. -/
def py_str_lt (a b : String) : Bool := pylt a.data b.data

/-- Python string comparison `a <= b`. -/
def py_str_le (a b : String) : Bool := ! pylt b.data a.data

/-- Python tuple comparison of two tag items, as used by `sorted`:
`(k1, v1) <= (k2, v2)` holds when `k1 < k2`, or `k1 = k2` and `v1 <= v2`. -/
def tag_item_le (a b : String × String) : Bool :=
  if a.1 = b.1 then py_str_le a.2 b.2 else py_str_lt a.1 b.1

/-- The sorting relation on tag items. -/
def tag_le (a b : String × String) : Prop := tag_item_le a b = true

instance : DecidableRel tag_le := fun a b =>
  inferInstanceAs (Decidable (tag_item_le a b = true))

theorem tag_item_le_mk (k1 v1 k2 v2 : String) :
    tag_item_le (k1, v1) (k2, v2) =
      if k1 = k2 then py_str_le v1 v2 else py_str_lt k1 k2 := rfl

instance : IsTotal (String × String) tag_le := ⟨by
  rintro ⟨k1, v1⟩ ⟨k2, v2⟩
  unfold tag_le
  rw [tag_item_le_mk, tag_item_le_mk]
  by_cases hk : k1 = k2
  · subst hk
    rw [if_pos rfl, if_pos rfl]
    unfold py_str_le
    by_cases h : pylt v2.data v1.data = true
    · right
      rw [pylt_asymm _ _ h]
      rfl
    · left
      have h2 : pylt v2.data v1.data = false := by simpa using h
      rw [h2]
      rfl
  · rw [if_neg hk, if_neg (Ne.symm hk)]
    unfold py_str_lt
    by_cases h1 : pylt k1.data k2.data = true
    · exact Or.inl h1
    · by_cases h2 : pylt k2.data k1.data = true
      · exact Or.inr h2
      · exact absurd (string_data_inj
          (pylt_conn _ _ (by simpa using h1) (by simpa using h2))) hk⟩

instance : IsTrans (String × String) tag_le := ⟨by
  rintro ⟨k1, v1⟩ ⟨k2, v2⟩ ⟨k3, v3⟩ hab hbc
  unfold tag_le at hab hbc ⊢
  rw [tag_item_le_mk] at hab hbc ⊢
  by_cases h12 : k1 = k2
  · subst h12
    by_cases h13 : k1 = k3
    · subst h13
      rw [if_pos rfl] at hab hbc ⊢
      unfold py_str_le at hab hbc ⊢
      have hab2 : pylt v2.data v1.data = false := by simpa using hab
      have hbc2 : pylt v3.data v2.data = false := by simpa using hbc
      simpa using pylt_le_trans hab2 hbc2
    · rw [if_neg h13] at hbc ⊢
      exact hbc
  · rw [if_neg h12] at hab
    by_cases h23 : k2 = k3
    · subst h23
      rw [if_neg h12]
      exact hab
    · rw [if_neg h23] at hbc
      unfold py_str_lt at hab hbc
      have hlt := pylt_trans _ _ _ hab hbc
      have h13 : k1 ≠ k3 := by
        intro h
        subst h
        rw [pylt_irrefl] at hlt
        exact absurd hlt (by simp)
      rw [if_neg h13]
      unfold py_str_lt
      exact hlt⟩

instance : IsAntisymm (String × String) tag_le := ⟨by
  rintro ⟨k1, v1⟩ ⟨k2, v2⟩ hab hba
  unfold tag_le at hab hba
  rw [tag_item_le_mk] at hab hba
  by_cases hk : k1 = k2
  · subst hk
    rw [if_pos rfl] at hab hba
    unfold py_str_le at hab hba
    have h1 : pylt v2.data v1.data = false := by simpa using hab
    have h2 : pylt v1.data v2.data = false := by simpa using hba
    rw [string_data_inj (pylt_conn _ _ h2 h1)]
  · rw [if_neg hk] at hab
    rw [if_neg (Ne.symm hk)] at hba
    unfold py_str_lt at hab hba
    rw [pylt_asymm _ _ hab] at hba
    exact absurd hba (by simp)⟩

/-- Python `sorted(tags.items())`. -/
def sorted_tag_items (tags : Tags) : Tags := List.insertionSort tag_le tags

/-- The sorting relation of plain strings, used by the formula the spec
writes. -/
def str_le (a b : String) : Prop := py_str_le a b = true

instance : DecidableRel str_le := fun a b =>
  inferInstanceAs (Decidable (py_str_le a b = true))

/-- Model of `_generate_metric_identifier` (vigilant/metric_collector.py
lines 396-402). -/
def generate_metric_identifier (name : String) (tags : Tags) : String :=
  if tags = [] then name
  else name ++ "_" ++
    String.intercalate "_" ((sorted_tag_items tags).map (fun p => p.1 ++ "_" ++ p.2))

/-- The identifier formula as the spec words it: the underscore-join of the
sorted combined strings `tag_key + "_" + tag_value` (sorting the combined
strings themselves, not the (key, value) items). -/
def spec_claimed_identifier (name : String) (tags : Tags) : String :=
  if tags = [] then name
  else name ++ "_" ++
    String.intercalate "_"
      (List.insertionSort str_le (tags.map (fun p => p.1 ++ "_" ++ p.2)))

/-! ## The metric collector

`vigilant/metric_collector.py`.  Events carry a timestamp (a `datetime`,
modelled as total microseconds since the Unix epoch), a name, a value and a
tag dict.  The collector keeps per-interval buckets keyed by the truncated
event timestamp; each bucket holds three series maps keyed by the series
identifier. -/

/-- A queued metric event, as the collector consumes it (`event.timestamp`,
`event.name`, `event.value`, `event.tags`). -/
structure MetricEvent where
  timestamp : Int
  name : String
  value : Val
  tags : Tags
deriving DecidableEq, Repr

/-- A counter series within one bucket (`CapturedCounter`). -/
structure CapturedCounter where
  name : String
  tags : Tags
  value : Val
deriving DecidableEq, Repr

/-- A gauge series within one bucket (`CapturedGauge`). -/
structure CapturedGauge where
  name : String
  tags : Tags
  value : Val
deriving DecidableEq, Repr

/-- A histogram series within one bucket (`CapturedHistogram`). -/
structure CapturedHistogram where
  name : String
  tags : Tags
  values : List Val
deriving DecidableEq, Repr

/-- One bucket of captured series (`CapturedMetrics`): three dicts keyed by
the series identifier. -/
structure CapturedMetrics where
  counters : List (String × CapturedCounter)
  gauges : List (String × CapturedGauge)
  histograms : List (String × CapturedHistogram)
deriving DecidableEq, Repr

/-- A freshly created bucket (`CapturedMetrics()`). -/
def CapturedMetrics.empty : CapturedMetrics := ⟨[], [], []⟩

/-- Model of `_truncate_datetime` (vigilant/metric_collector.py lines
385-393): the datetime is given as total microseconds since the epoch and an
interval of `interval_seconds` whole seconds.  `int(dt.timestamp())`
truncates the POSIX timestamp toward zero; Python `%` on a positive divisor
behaves like Euclidean mod.  The result is again total microseconds. -/
def truncate_datetime (m : Int) (interval_seconds : Int) : Int :=
  if interval_seconds ≤ 0 then m - m % 1000000
  else
    let t := m.tdiv 1000000
    (t - t % interval_seconds) * 1000000

/-- Model of `_process_counter_event` on the bucket for the event's interval:
`series.value += event.value`, creating the series from the event if
absent. -/
def process_counter_event (bucket : CapturedMetrics) (e : MetricEvent) : CapturedMetrics :=
  let identifier := generate_metric_identifier e.name e.tags
  match alist_get identifier bucket.counters with
  | Option.some counter =>
    { bucket with counters := alist_set identifier ({ counter with value := counter.value + e.value }) bucket.counters }
  | Option.none =>
    { bucket with counters := alist_set identifier ⟨e.name, e.tags, e.value⟩ bucket.counters }

/-- Model of `_process_gauge_event` on the bucket for the event's interval:
the stored value is unconditionally overwritten with `event.value` (the code
has no notion of a gauge mode), creating the series from the event if
absent. -/
def process_gauge_event (bucket : CapturedMetrics) (e : MetricEvent) : CapturedMetrics :=
  let identifier := generate_metric_identifier e.name e.tags
  match alist_get identifier bucket.gauges with
  | Option.some gauge =>
    { bucket with gauges := alist_set identifier ({ gauge with value := e.value }) bucket.gauges }
  | Option.none =>
    { bucket with gauges := alist_set identifier ⟨e.name, e.tags, e.value⟩ bucket.gauges }

/-- Model of `_process_histogram_event` on the bucket for the event's
interval: `series.values.append(event.value)`, creating the series with the
one-element list if absent. -/
def process_histogram_event (bucket : CapturedMetrics) (e : MetricEvent) : CapturedMetrics :=
  let identifier := generate_metric_identifier e.name e.tags
  match alist_get identifier bucket.histograms with
  | Option.some histogram =>
    { bucket with histograms := alist_set identifier ({ histogram with values := histogram.values ++ [e.value] }) bucket.histograms }
  | Option.none =>
    { bucket with histograms := alist_set identifier ⟨e.name, e.tags, [e.value]⟩ bucket.histograms }

/-- A counter message of an aggregated batch (`CounterMessage`). -/
structure CounterMessage where
  timestamp : Int
  name : String
  value : Val
  tags : Tags
deriving DecidableEq, Repr

/-- A gauge message of an aggregated batch (`GaugeMessage`). -/
structure GaugeMessage where
  timestamp : Int
  name : String
  value : Val
  tags : Tags
deriving DecidableEq, Repr

/-- A histogram message of an aggregated batch (`HistogramMessage`). -/
structure HistogramMessage where
  timestamp : Int
  name : String
  values : List Val
  tags : Tags
deriving DecidableEq, Repr

/-- An aggregated batch (`AggregatedMetrics`). -/
structure AggregatedMetrics where
  counter_metrics : List CounterMessage
  gauge_metrics : List GaugeMessage
  histogram_metrics : List HistogramMessage
deriving DecidableEq, Repr

/-- Model of `_aggregate_captured_metrics`: each captured series becomes one
message carrying the interval timestamp. -/
def aggregate_captured_metrics (timestamp : Int) (captured : CapturedMetrics) :
    AggregatedMetrics where
  counter_metrics := captured.counters.map (fun p => ⟨timestamp, p.2.name, p.2.value, p.2.tags⟩)
  gauge_metrics := captured.gauges.map (fun p => ⟨timestamp, p.2.name, p.2.value, p.2.tags⟩)
  histogram_metrics := captured.histograms.map (fun p => ⟨timestamp, p.2.name, p.2.values, p.2.tags⟩)

/-- The collector's bucket map (`captured_buckets`), keyed by the interval
start in microseconds since the epoch. -/
structure CollectorState where
  captured_buckets : List (Int × CapturedMetrics)
deriving DecidableEq, Repr

/-- Model of `_get_bucket` followed by `_process_gauge_event`: the event is
folded into the bucket of its truncated timestamp, creating the bucket if
absent. -/
def collector_process_gauge (interval_seconds : Int) (st : CollectorState)
    (e : MetricEvent) : CollectorState :=
  let bucket_time := truncate_datetime e.timestamp interval_seconds
  let bucket := (alist_get bucket_time st.captured_buckets).getD CapturedMetrics.empty
  ⟨alist_set bucket_time (process_gauge_event bucket e) st.captured_buckets⟩

/-- Python truthiness of a bucket: at least one of the three series dicts is
non-empty. -/
def bucket_nonempty (b : CapturedMetrics) : Bool :=
  !b.counters.isEmpty || !b.gauges.isEmpty || !b.histograms.isEmpty

/-- Model of `_cleanup_old_buckets`: delete every bucket strictly older than
the previous interval. -/
def cleanup_old_buckets (interval_seconds : Int) (just_processed : Int)
    (st : CollectorState) : CollectorState :=
  ⟨st.captured_buckets.filter
    (fun p => !decide (p.1 < just_processed - interval_seconds * 1000000))⟩

/-- Model of `_send_metrics_for_interval`: if the interval has a non-empty
bucket, remove it, aggregate it and hand the batch to the sender; always run
the cleanup afterwards.  Returns the new state and the batch handed to the
sender, if any. -/
def send_metrics_for_interval (interval_seconds : Int) (st : CollectorState)
    (interval_start : Int) : CollectorState × Option AggregatedMetrics :=
  match alist_get interval_start st.captured_buckets with
  | Option.some bucket =>
    if bucket_nonempty bucket then
      let st1 : CollectorState := ⟨alist_del interval_start st.captured_buckets⟩
      let agg := aggregate_captured_metrics interval_start bucket
      let sent :=
        if 0 < agg.counter_metrics.length ∨ 0 < agg.gauge_metrics.length ∨
            0 < agg.histogram_metrics.length
        then Option.some agg else Option.none
      (cleanup_old_buckets interval_seconds interval_start st1, sent)
    else (cleanup_old_buckets interval_seconds interval_start st, Option.none)
  | Option.none => (cleanup_old_buckets interval_seconds interval_start st, Option.none)

/-! ## HTTP send-outcome classification

`MetricSender._send_metrics` (vigilant/metric_sender.py lines 149-186) and
`MetricBatcher._send_batch` (vigilant/metric_batcher.py lines 159-188) post
the payload and classify the outcome through an identical chain of handlers:
`requests.Response.raise_for_status` raises `HTTPError` exactly for statuses
400-599; the handler raises `BatcherInvalidTokenError` for status 401 and
`BatcherInternalServerError` otherwise; `Timeout`, `ConnectionError` and any
other `RequestException` all raise `BatcherInternalServerError` as well. -/

/-- The outcome of the underlying HTTP request. -/
inductive HttpOutcome where
  | response (status : Nat)
  | timeout
  | connection_error
  | request_error
deriving DecidableEq, Repr

/-- The classification the sender code produces: no exception, or one of the
two batcher error classes. -/
inductive SendResult where
  | ok
  | invalid_token_error
  | internal_server_error
deriving DecidableEq, Repr

/-- Model of the classification in `MetricSender._send_metrics`. -/
def send_metrics_classify : HttpOutcome → SendResult
  | HttpOutcome.response s =>
    if 400 ≤ s ∧ s < 600 then
      (if s = 401 then SendResult.invalid_token_error else SendResult.internal_server_error)
    else SendResult.ok
  | HttpOutcome.timeout => SendResult.internal_server_error
  | HttpOutcome.connection_error => SendResult.internal_server_error
  | HttpOutcome.request_error => SendResult.internal_server_error

/-- Model of the classification in `MetricBatcher._send_batch`: the handler
chain is identical to `MetricSender._send_metrics`. -/
def send_batch_classify : HttpOutcome → SendResult
  | HttpOutcome.response s =>
    if 400 ≤ s ∧ s < 600 then
      (if s = 401 then SendResult.invalid_token_error else SendResult.internal_server_error)
    else SendResult.ok
  | HttpOutcome.timeout => SendResult.internal_server_error
  | HttpOutcome.connection_error => SendResult.internal_server_error
  | HttpOutcome.request_error => SendResult.internal_server_error

/-- The four-way result space the spec describes. -/
inductive SpecSendResult where
  | ok
  | invalid_token
  | server_error
  | network_error
deriving DecidableEq, Repr

/-- The classification as claim C7 words it: `401 → invalid_token`,
`2xx → ok`, any other HTTP status → `server_error`, transport failure →
`network_error`. -/
def spec_classify : HttpOutcome → SpecSendResult
  | HttpOutcome.response s =>
    if s = 401 then SpecSendResult.invalid_token
    else if 200 ≤ s ∧ s < 300 then SpecSendResult.ok
    else SpecSendResult.server_error
  | _ => SpecSendResult.network_error

/-! ## Bounded queues and the producer-facing add

`MetricCollector._put_event` wraps `queue.Queue.put_nowait` and swallows
`queue.Full`; the vigilant_sdk `Batcher.add` appends to an unbounded Python
list and sets the flush event when the batch size threshold is reached. -/

/-- Python `queue.Full`. -/
inductive QueueFull where
  | full
deriving DecidableEq, Repr

/-- Model of `queue.Queue.put_nowait` on a queue of capacity `maxsize`:
raises `queue.Full` when the queue already holds `maxsize` items, otherwise
appends. -/
def put_nowait {α : Type} (maxsize : Nat) (q : List α) (x : α) :
    Except QueueFull (List α) :=
  if maxsize ≤ q.length then Except.error QueueFull.full
  else Except.ok (q ++ [x])

/-- Model of `MetricCollector._put_event` (vigilant/metric_collector.py lines
190-197): return unchanged when stopping, otherwise `put_nowait` with
`except queue.Full: pass`. -/
def put_event {α : Type} (maxsize : Nat) (stop_is_set : Bool) (q : List α) (x : α) :
    Except QueueFull (List α) :=
  if stop_is_set then Except.ok q
  else
    match put_nowait maxsize q x with
    | Except.ok q2 => Except.ok q2
    | Except.error _ => Except.ok q

/-- Model of vigilant_sdk `Batcher.add` (vigilant_sdk/batcher.py lines
46-50): append the item to the unbounded list queue, and set the flush event
once the queue reaches `max_batch_size`. -/
def batcher_add {α : Type} (max_batch_size : Nat) (q : List α) (flush_event : Bool)
    (x : α) : List α × Bool :=
  let q2 := q ++ [x]
  (q2, if max_batch_size ≤ q2.length then true else flush_event)

/-! ## The task-scoped attribute store and the log attribute merge

`vigilant/context.py` and `vigilant_sdk/attributes.py` keep the task-scoped
attributes in a `contextvars.ContextVar` holding a dict.  `add_attributes`
sets the var to the merged dict, runs the callback, and in a `finally` block
resets the var through the token, which restores the exact value the var had
when `set` was called.  `AttributeProvider.update_attributes` merges the
call-site attributes with the context attributes, injects `service.name`,
and keeps only entries whose key and value are both strings. -/

/-- A Python value as far as the attribute pipeline distinguishes them:
strings, and things that are not strings. -/
inductive PyVal where
  | str (s : String)
  | int (n : Int)
  | pynone
deriving DecidableEq, Repr

/-- Python `isinstance(v, str)`. -/
def PyVal.is_str : PyVal → Bool
  | PyVal.str _ => true
  | _ => false

/-- A Python dict with arbitrary keys and values (`Dict[str, Any]` plus
whatever the caller actually passed). -/
abbrev PyDict := List (PyVal × PyVal)

/-- The value held by the `_STORED_ATTRIBUTES` context variable. -/
abbrev Store := PyDict

/-- Model of `get_attributes`: a snapshot of the current store. -/
def get_attributes (s : Store) : PyDict := s

/-- A `contextvars` token: it remembers the value the variable held when
`set` was called. -/
structure CtxToken where
  old : Store
deriving DecidableEq, Repr

/-- Model of `ContextVar.set`: returns the token and the new state. -/
def ctxvar_set (v : Store) (s : Store) : CtxToken × Store := (⟨s⟩, v)

/-- Model of `ContextVar.reset`: restores the value recorded in the token. -/
def ctxvar_reset (t : CtxToken) (_s : Store) : Store := t.old

/-- A Python exception escaping the callback. -/
inductive PyExn where
  | raised
deriving DecidableEq, Repr

/-- Model of `add_attributes` (vigilant/context.py lines 8-21 and
vigilant_sdk/attributes.py lines 8-24): merge the attributes over the current
store, set the context variable, run the callback (which may itself read and
mutate the store, and may raise), and in the `finally` block reset the
variable through the token; the callback's result or exception is passed
through. -/
def add_attributes_run {α : Type} (attributes : PyDict)
    (callback : Option (Store → Except PyExn α × Store)) (s0 : Store) :
    Except PyExn (Option α) × Store :=
  let current_store := get_attributes s0
  let updated_store := dict_update current_store attributes
  let (token, s1) := ctxvar_set updated_store s0
  match callback with
  | Option.none => (Except.ok Option.none, ctxvar_reset token s1)
  | Option.some f =>
    let (res, s2) := f s1
    (res.map Option.some, ctxvar_reset token s2)

/-- Model of `AttributeProvider.update_attributes` (vigilant_sdk/attributes.py
lines 53-73): start from a copy of the call-site attributes, update with the
context attributes (context wins on key conflicts), force `service.name` to
the configured instance name, then keep only entries whose key and value are
both strings.  The result is written back into the log's attribute dict. -/
def update_attributes (name : String) (attributes : PyDict) (ctx : PyDict) : PyDict :=
  let merged := dict_update attributes ctx
  let merged2 := alist_set (PyVal.str "service.name") (PyVal.str name) merged
  merged2.filter (fun p => p.1.is_str && p.2.is_str)

/-- Model of the attribute map attached by `Vigilant.send_log`
(vigilant/vigilant.py lines 92-106): `send_log` passes the log's call-site
attributes through `update_attributes` against the current task store before
dispatching the log. -/
def send_log_attributes (name : String) (log_attributes : PyDict) (store : Store) :
    PyDict :=
  update_attributes name log_attributes (get_attributes store)

/-! ## Folding same-series event sequences -/

/-- Folding a sequence of counter events with a common name and tag map into
one bucket, in submission order. -/
def fold_counter_values (name : String) (tags : Tags) (t : Int) (vs : List Val)
    (b : CapturedMetrics) : CapturedMetrics :=
  vs.foldl (fun bk v => process_counter_event bk ⟨t, name, v, tags⟩) b

/-- Folding a sequence of gauge events with a common name and tag map into
one bucket, in submission order. -/
def fold_gauge_values (name : String) (tags : Tags) (t : Int) (vs : List Val)
    (b : CapturedMetrics) : CapturedMetrics :=
  vs.foldl (fun bk v => process_gauge_event bk ⟨t, name, v, tags⟩) b

theorem process_counter_event_mk (b : CapturedMetrics) (t : Int) (name : String)
    (v : Val) (tags : Tags) :
    process_counter_event b ⟨t, name, v, tags⟩ =
      (match alist_get (generate_metric_identifier name tags) b.counters with
       | Option.some counter =>
         { b with counters := alist_set (generate_metric_identifier name tags) ⟨counter.name, counter.tags, counter.value + v⟩ b.counters }
       | Option.none =>
         { b with counters := alist_set (generate_metric_identifier name tags) ⟨name, tags, v⟩ b.counters }) := rfl

theorem process_gauge_event_mk (b : CapturedMetrics) (t : Int) (name : String)
    (v : Val) (tags : Tags) :
    process_gauge_event b ⟨t, name, v, tags⟩ =
      (match alist_get (generate_metric_identifier name tags) b.gauges with
       | Option.some gauge =>
         { b with gauges := alist_set (generate_metric_identifier name tags) ⟨gauge.name, gauge.tags, v⟩ b.gauges }
       | Option.none =>
         { b with gauges := alist_set (generate_metric_identifier name tags) ⟨name, tags, v⟩ b.gauges }) := rfl

theorem counter_fold_value (name : String) (tags : Tags) (t : Int) :
    ∀ (vs : List Val) (b : CapturedMetrics) (c0 : CapturedCounter),
      alist_get (generate_metric_identifier name tags) b.counters = Option.some c0 →
      alist_get (generate_metric_identifier name tags)
          (fold_counter_values name tags t vs b).counters =
        Option.some ⟨c0.name, c0.tags, c0.value + vs.sum⟩ := by
  intro vs
  induction vs with
  | nil =>
    intro b c0 h
    obtain ⟨n0, t0, v0⟩ := c0
    simpa [fold_counter_values] using h
  | cons v vs ih =>
    intro b c0 h
    have hstep : fold_counter_values name tags t (v :: vs) b =
        fold_counter_values name tags t vs (process_counter_event b ⟨t, name, v, tags⟩) := rfl
    rw [hstep]
    have hget : alist_get (generate_metric_identifier name tags)
        (process_counter_event b ⟨t, name, v, tags⟩).counters =
        Option.some ⟨c0.name, c0.tags, c0.value + v⟩ := by
      simp only [process_counter_event_mk, h]
      exact alist_get_set_self _ _ _
    rw [ih _ _ hget]
    simp [List.sum_cons, add_assoc]

theorem gauge_fold_value (name : String) (tags : Tags) (t : Int) :
    ∀ (vs : List Val) (b : CapturedMetrics) (g0 : CapturedGauge),
      alist_get (generate_metric_identifier name tags) b.gauges = Option.some g0 →
      alist_get (generate_metric_identifier name tags)
          (fold_gauge_values name tags t vs b).gauges =
        Option.some ⟨g0.name, g0.tags, vs.getLastD g0.value⟩ := by
  intro vs
  induction vs with
  | nil =>
    intro b g0 h
    obtain ⟨n0, t0, v0⟩ := g0
    simpa [fold_gauge_values] using h
  | cons v vs ih =>
    intro b g0 h
    have hstep : fold_gauge_values name tags t (v :: vs) b =
        fold_gauge_values name tags t vs (process_gauge_event b ⟨t, name, v, tags⟩) := rfl
    rw [hstep]
    have hget : alist_get (generate_metric_identifier name tags)
        (process_gauge_event b ⟨t, name, v, tags⟩).gauges =
        Option.some ⟨g0.name, g0.tags, v⟩ := by
      simp only [process_gauge_event_mk, h]
      exact alist_get_set_self _ _ _
    rw [ih _ _ hget, List.getLastD_cons]

/-! ## Gauge modes as the spec describes them

`vigilant/types.py` defines a `GaugeMode` enum (`SET | INC | DEC`) on the
`GaugeEvent` class, but no code in the repository routes a `GaugeEvent` or a
mode to the collector: the events the collector consumes carry only a value,
and `_process_gauge_event` overwrites the series value unconditionally. -/

/-- A gauge mode, as the spec and the unused `GaugeMode` enum describe it. -/
inductive SpecGaugeMode where
  | set
  | inc
  | dec
deriving DecidableEq, Repr

/-- The emitted gauge value claim C1 predicts for a fold of mode-carrying
gauge events over one interval: `+ v` for INC, `- v` for DEC, reset then
`+ v` for SET, starting from 0 for an absent series. -/
def spec_gauge_emitted (events : List (SpecGaugeMode × Val)) : Val :=
  events.foldl
    (fun acc e =>
      match e.1 with
      | SpecGaugeMode.set => e.2
      | SpecGaugeMode.inc => acc + e.2
      | SpecGaugeMode.dec => acc - e.2) 0

/-- Counterexample to claim C1.  `_process_gauge_event` ignores any gauge
mode and assigns `series.value = event.value` unconditionally, so the
submission SET 5, INC 3, DEC 1 (reaching the collector as values 5, 3, 1)
leaves the series at 1, while the claim predicts 5 + 3 - 1 = 7. -/
theorem C1_counterexample :
    spec_gauge_emitted
        [(SpecGaugeMode.set, 5), (SpecGaugeMode.inc, 3), (SpecGaugeMode.dec, 1)] = 7 ∧
    alist_get (generate_metric_identifier "q_depth" [])
        (fold_gauge_values "q_depth" [] 0 [5, 3, 1] CapturedMetrics.empty).gauges =
      Option.some ⟨"q_depth", [], 1⟩ ∧
    (1 : Val) ≠ 7 := by
  refine ⟨?_, rfl, by norm_num⟩
  norm_num [spec_gauge_emitted, List.foldl_cons, List.foldl_nil]

/-- Claim C1 corrected: the gauge fold ignores any mode and assigns
`series.value = event.value` for every event (creating the series from the
event if absent), so the emitted gauge value for the interval equals the
last event's value in fold order. -/
theorem C1_gauge_fold_last (name : String) (tags : Tags) (ts t : Int)
    (vs : List Val) (b : CapturedMetrics)
    (habs : alist_get (generate_metric_identifier name tags) b.gauges = Option.none)
    (hne : vs ≠ []) :
    ∃ msg ∈ (aggregate_captured_metrics ts
        (fold_gauge_values name tags t vs b)).gauge_metrics,
      msg.name = name ∧ msg.tags = tags ∧ msg.value = vs.getLastD 0 := by
  cases vs with
  | nil => exact absurd rfl hne
  | cons v vs =>
    have hstep : fold_gauge_values name tags t (v :: vs) b =
        fold_gauge_values name tags t vs (process_gauge_event b ⟨t, name, v, tags⟩) := rfl
    have hget : alist_get (generate_metric_identifier name tags)
        (process_gauge_event b ⟨t, name, v, tags⟩).gauges =
        Option.some ⟨name, tags, v⟩ := by
      simp only [process_gauge_event_mk, habs]
      exact alist_get_set_self _ _ _
    have hfold := gauge_fold_value name tags t vs _ _ hget
    rw [hstep]
    refine ⟨⟨ts, name, vs.getLastD v, tags⟩, ?_, rfl, rfl, by rw [List.getLastD_cons]⟩
    exact List.mem_map_of_mem _ (alist_get_mem hfold)

/-- Witness for the corrected claim C1 at a concrete input: folding gauge
values 5, 3, 1 into a fresh series emits the last value 1. -/
theorem C1_witness :
    alist_get (generate_metric_identifier "g" []) CapturedMetrics.empty.gauges =
      Option.none ∧
    ([(5 : Val), 3, 1] ≠ []) ∧
    ∃ msg ∈ (aggregate_captured_metrics 0
        (fold_gauge_values "g" [] 0 [5, 3, 1] CapturedMetrics.empty)).gauge_metrics,
      msg.name = "g" ∧ msg.tags = [] ∧ msg.value = [(5 : Val), 3, 1].getLastD 0 :=
  ⟨rfl, by decide,
    C1_gauge_fold_last "g" [] 0 0 [5, 3, 1] CapturedMetrics.empty rfl (by decide)⟩

/-- Claim C3: for every sequence of counter events with the same (name, tags)
and values v1, ..., vk folded within one interval, the fold adds each value
into the series accumulator (created from the first event if absent), and
the emitted counter value for that interval equals the sum of the values. -/
theorem C3_counter_fold_sum (name : String) (tags : Tags) (ts t : Int)
    (vs : List Val) (b : CapturedMetrics)
    (habs : alist_get (generate_metric_identifier name tags) b.counters = Option.none)
    (hne : vs ≠ []) :
    ∃ msg ∈ (aggregate_captured_metrics ts
        (fold_counter_values name tags t vs b)).counter_metrics,
      msg.name = name ∧ msg.tags = tags ∧ msg.value = vs.sum := by
  cases vs with
  | nil => exact absurd rfl hne
  | cons v vs =>
    have hstep : fold_counter_values name tags t (v :: vs) b =
        fold_counter_values name tags t vs (process_counter_event b ⟨t, name, v, tags⟩) := rfl
    have hget : alist_get (generate_metric_identifier name tags)
        (process_counter_event b ⟨t, name, v, tags⟩).counters =
        Option.some ⟨name, tags, v⟩ := by
      simp only [process_counter_event_mk, habs]
      exact alist_get_set_self _ _ _
    have hfold := counter_fold_value name tags t vs _ _ hget
    rw [hstep]
    refine ⟨⟨ts, name, v + vs.sum, tags⟩, ?_, rfl, rfl, by rw [List.sum_cons]⟩
    exact List.mem_map_of_mem _ (alist_get_mem hfold)

/-- Witness for claim C3 at a concrete input: folding counter values 2, 3, 4
into a fresh series emits their sum 9. -/
theorem C3_witness :
    alist_get (generate_metric_identifier "req" []) CapturedMetrics.empty.counters =
      Option.none ∧
    ([(2 : Val), 3, 4] ≠ []) ∧
    ∃ msg ∈ (aggregate_captured_metrics 0
        (fold_counter_values "req" [] 0 [2, 3, 4] CapturedMetrics.empty)).counter_metrics,
      msg.name = "req" ∧ msg.tags = [] ∧ msg.value = [(2 : Val), 3, 4].sum :=
  ⟨rfl, by decide,
    C3_counter_fold_sum "req" [] 0 0 [2, 3, 4] CapturedMetrics.empty rfl (by decide)⟩

/-- Counterexample to claim C5.  The code sorts the tag items as (key, value)
pairs; the claim's formula sorts the combined `k + "_" + v` strings.  For the
tag map with keys "a" and "a_" the two orders differ, so the identifiers
differ. -/
theorem C5_counterexample :
    generate_metric_identifier "n" [("a", "z"), ("a_", "a")] = "n_a_z_a__a" ∧
    spec_claimed_identifier "n" [("a", "z"), ("a_", "a")] = "n_a__a_a_z" ∧
    generate_metric_identifier "n" [("a", "z"), ("a_", "a")] ≠
      spec_claimed_identifier "n" [("a", "z"), ("a_", "a")] := by
  refine ⟨by decide, by decide, by decide⟩

/-- Claim C5 corrected: the identifier is the name alone for an empty tag
map, and otherwise the name joined with `k + "_" + v` over the tag items
sorted as (key, value) pairs; it depends only on the tag map and not on dict
insertion order, hence is stable across aggregation windows. -/
theorem C5_identifier_stable (name : String) (t1 t2 : Tags) (h : t1.Perm t2) :
    generate_metric_identifier name t1 = generate_metric_identifier name t2 := by
  have hs : sorted_tag_items t1 = sorted_tag_items t2 := by
    apply List.eq_of_perm_of_sorted
      ((List.perm_insertionSort tag_le t1).trans
        (h.trans (List.perm_insertionSort tag_le t2).symm))
      (List.sorted_insertionSort tag_le t1)
      (List.sorted_insertionSort tag_le t2)
  unfold generate_metric_identifier
  by_cases h1 : t1 = []
  · subst h1
    have h2 : t2 = [] := h.symm.eq_nil
    simp [h2]
  · have h2 : t2 ≠ [] := by
      intro hh
      subst hh
      exact h1 h.eq_nil
    rw [if_neg h1, if_neg h2, hs]

/-- Witness for the corrected claim C5 at a concrete input: the identifier is
invariant under reordering of the tag dict. -/
theorem C5_witness :
    ([("a", "1"), ("b", "2")] : Tags).Perm [("b", "2"), ("a", "1")] ∧
    generate_metric_identifier "m" [("a", "1"), ("b", "2")] =
      generate_metric_identifier "m" [("b", "2"), ("a", "1")] :=
  ⟨List.Perm.swap _ _ _,
    C5_identifier_stable "m" _ _ (List.Perm.swap _ _ _)⟩

/-- Claim C10: the series identifier is not injective — the same-name tag
maps with entries `a: b_c` and `a_b: c` are distinct but produce the same
identifier, and the counter fold merges two such events into a single series
whose value is the sum of both. -/
theorem C10_identifier_collision :
    generate_metric_identifier "n" [("a", "b_c")] =
      generate_metric_identifier "n" [("a_b", "c")] ∧
    ([("a", "b_c")] : Tags) ≠ [("a_b", "c")] ∧
    (process_counter_event
        (process_counter_event CapturedMetrics.empty ⟨0, "n", 2, [("a", "b_c")]⟩)
        ⟨0, "n", 3, [("a_b", "c")]⟩).counters =
      [("n_a_b_c", ⟨"n", [("a", "b_c")], 2 + 3⟩)] ∧
    (2 + 3 : Val) = 5 := by
  refine ⟨by decide, by decide, rfl, by norm_num⟩

theorem isEmpty_false_length_pos {α : Type} {l : List α}
    (h : l.isEmpty = false) : 0 < l.length := by
  cases l with
  | nil => simp [List.isEmpty] at h
  | cons a l => simp

theorem aggregate_len_pos {b : CapturedMetrics} (T : Int)
    (hne : bucket_nonempty b = true) :
    0 < (aggregate_captured_metrics T b).counter_metrics.length ∨
    0 < (aggregate_captured_metrics T b).gauge_metrics.length ∨
    0 < (aggregate_captured_metrics T b).histogram_metrics.length := by
  unfold bucket_nonempty at hne
  cases hc : b.counters with
  | cons a l =>
    left
    simp [aggregate_captured_metrics, hc]
  | nil =>
    cases hg : b.gauges with
    | cons a l =>
      right; left
      simp [aggregate_captured_metrics, hg]
    | nil =>
      cases hh : b.histograms with
      | cons a l =>
        right; right
        simp [aggregate_captured_metrics, hh]
      | nil =>
        rw [hc, hg, hh] at hne
        simp [List.isEmpty] at hne

/-- Counterexample to claim C2.  A gauge event in the interval starting at
the epoch is emitted at that interval's tick, but its bucket is deleted in
the process: the next interval's tick, with no new gauge events, emits
nothing — the gauge value is not re-emitted. -/
theorem C2_counterexample :
    (send_metrics_for_interval 60
        (collector_process_gauge 60 ⟨[]⟩ ⟨0, "g", 5, []⟩) 0).2 =
      Option.some ⟨[], [⟨0, "g", 5, []⟩], []⟩ ∧
    ((send_metrics_for_interval 60
        (collector_process_gauge 60 ⟨[]⟩ ⟨0, "g", 5, []⟩) 0).1).captured_buckets = [] ∧
    (send_metrics_for_interval 60
        (send_metrics_for_interval 60
          (collector_process_gauge 60 ⟨[]⟩ ⟨0, "g", 5, []⟩) 0).1 60000000).2 =
      Option.none := by
  refine ⟨by decide, by decide, by decide⟩

/-- Claim C2 corrected: gauge series state is not retained when an interval
closes.  Sending a non-empty bucket removes it from the collector state and
emits exactly its aggregation, and a tick for an interval with no bucket (in
particular, any later interval in which no new gauge events arrived) emits
nothing. -/
theorem C2_bucket_deleted_on_send (I : Int) (st : CollectorState) (T : Int)
    (b : CapturedMetrics)
    (hget : alist_get T st.captured_buckets = Option.some b)
    (hne : bucket_nonempty b = true) :
    (send_metrics_for_interval I st T).2 =
      Option.some (aggregate_captured_metrics T b) ∧
    alist_get T ((send_metrics_for_interval I st T).1).captured_buckets =
      Option.none ∧
    (∀ (st2 : CollectorState) (T2 : Int),
      alist_get T2 st2.captured_buckets = Option.none →
      (send_metrics_for_interval I st2 T2).2 = Option.none) := by
  refine ⟨?_, ?_, ?_⟩
  · unfold send_metrics_for_interval
    simp only [hget]
    rw [if_pos hne, if_pos (aggregate_len_pos T hne)]
  · unfold send_metrics_for_interval
    simp only [hget]
    rw [if_pos hne]
    unfold cleanup_old_buckets
    exact alist_get_filter_none _ _ _ (alist_get_del_self T st.captured_buckets)
  · intro st2 T2 h2
    unfold send_metrics_for_interval
    simp only [h2]

/-- Witness for the corrected claim C2 at a concrete input. -/
theorem C2_witness :
    alist_get 0 (CollectorState.mk
        [(0, ⟨[], [("g", ⟨"g", [], 5⟩)], []⟩)]).captured_buckets =
      Option.some ⟨[], [("g", ⟨"g", [], 5⟩)], []⟩ ∧
    bucket_nonempty ⟨[], [("g", ⟨"g", [], 5⟩)], []⟩ = true ∧
    ((send_metrics_for_interval 60
        ⟨[(0, ⟨[], [("g", ⟨"g", [], 5⟩)], []⟩)]⟩ 0).2 =
      Option.some (aggregate_captured_metrics 0 ⟨[], [("g", ⟨"g", [], 5⟩)], []⟩) ∧
    alist_get 0 ((send_metrics_for_interval 60
        ⟨[(0, ⟨[], [("g", ⟨"g", [], 5⟩)], []⟩)]⟩ 0).1).captured_buckets =
      Option.none ∧
    (∀ (st2 : CollectorState) (T2 : Int),
      alist_get T2 st2.captured_buckets = Option.none →
      (send_metrics_for_interval 60 st2 T2).2 = Option.none)) :=
  ⟨by decide, by decide,
    C2_bucket_deleted_on_send 60 ⟨[(0, ⟨[], [("g", ⟨"g", [], 5⟩)], []⟩)]⟩ 0
      ⟨[], [("g", ⟨"g", [], 5⟩)], []⟩ (by decide) (by decide)⟩

/-- Counterexample to claim C7.  In both senders a transport failure raises
`BatcherInternalServerError`, the same classification as a non-401 HTTP
error status: there is no distinct network_error result.  (A 3xx status,
which `raise_for_status` does not raise on, is also treated as ok rather
than as a server error.) -/
theorem C7_counterexample :
    send_metrics_classify HttpOutcome.timeout = SendResult.internal_server_error ∧
    send_metrics_classify (HttpOutcome.response 500) = SendResult.internal_server_error ∧
    send_metrics_classify HttpOutcome.timeout =
      send_metrics_classify (HttpOutcome.response 500) ∧
    spec_classify HttpOutcome.timeout = SpecSendResult.network_error ∧
    spec_classify (HttpOutcome.response 500) = SpecSendResult.server_error ∧
    SpecSendResult.network_error ≠ SpecSendResult.server_error ∧
    send_batch_classify HttpOutcome.timeout = SendResult.internal_server_error ∧
    send_batch_classify HttpOutcome.connection_error = SendResult.internal_server_error ∧
    send_metrics_classify (HttpOutcome.response 304) = SendResult.ok ∧
    spec_classify (HttpOutcome.response 304) = SpecSendResult.server_error := by
  decide

/-- Claim C7 corrected: the classification is total and mutually exclusive
over three results: a 401 response yields the invalid-token error; any other
response with status 400-599 yields the internal-server error; any response
outside 400-599 (including 2xx and 3xx) yields ok; and every transport
failure (timeout, connection error, other request error) yields the same
internal-server error — there is no distinct network_error result.  The
metric batcher classifies identically. -/
theorem C7_classification (s : Nat) (o : HttpOutcome) :
    send_batch_classify o = send_metrics_classify o ∧
    (send_metrics_classify (HttpOutcome.response s) = SendResult.invalid_token_error ↔
      s = 401) ∧
    (send_metrics_classify (HttpOutcome.response s) = SendResult.ok ↔
      (s < 400 ∨ 600 ≤ s)) ∧
    (send_metrics_classify (HttpOutcome.response s) = SendResult.internal_server_error ↔
      (400 ≤ s ∧ s < 600 ∧ s ≠ 401)) ∧
    send_metrics_classify HttpOutcome.timeout = SendResult.internal_server_error ∧
    send_metrics_classify HttpOutcome.connection_error = SendResult.internal_server_error ∧
    send_metrics_classify HttpOutcome.request_error = SendResult.internal_server_error := by
  refine ⟨?_, ?_, ?_, ?_, rfl, rfl, rfl⟩
  · cases o <;> rfl
  · simp only [send_metrics_classify]
    by_cases h4 : 400 ≤ s ∧ s < 600
    · rw [if_pos h4]
      by_cases h1 : s = 401
      · simp [h1]
      · simp [h1]
    · rw [if_neg h4]
      constructor
      · intro h
        exact absurd h (by simp)
      · intro h
        subst h
        exact absurd (by omega : 400 ≤ 401 ∧ 401 < 600) h4
  · simp only [send_metrics_classify]
    by_cases h4 : 400 ≤ s ∧ s < 600
    · rw [if_pos h4]
      by_cases h1 : s = 401
      · simp only [h1, if_pos rfl]
        constructor
        · intro h
          exact absurd h (by simp)
        · intro h
          omega
      · rw [if_neg h1]
        constructor
        · intro h
          exact absurd h (by simp)
        · intro h
          omega
    · rw [if_neg h4]
      constructor
      · intro _
        omega
      · intro _
        rfl
  · simp only [send_metrics_classify]
    by_cases h4 : 400 ≤ s ∧ s < 600
    · rw [if_pos h4]
      by_cases h1 : s = 401
      · simp only [h1, if_pos rfl]
        constructor
        · intro h
          exact absurd h (by simp)
        · intro h
          omega
      · rw [if_neg h1]
        simp only [true_iff]
        exact ⟨h4.1, h4.2, h1⟩
    · rw [if_neg h4]
      constructor
      · intro h
        exact absurd h (by simp)
      · intro h
        exact absurd ⟨h.1, h.2.1⟩ h4

/-- Claim C8: `add` on the collector's bounded event queues never raises to
the producer and never blocks — when the queue is at capacity the record is
dropped and the queue is unchanged, otherwise it is appended; and the sdk
batcher's `add` simply appends to its unbounded queue, likewise never
raising. -/
theorem C8_add_never_raises {α : Type} (maxsize : Nat) (q : List α) (x : α)
    (m : Nat) (f : Bool) :
    put_event maxsize false q x =
      Except.ok (if maxsize ≤ q.length then q else q ++ [x]) ∧
    put_event maxsize true q x = Except.ok q ∧
    put_nowait maxsize q x =
      (if maxsize ≤ q.length then Except.error QueueFull.full
        else Except.ok (q ++ [x])) ∧
    (batcher_add m q f x).1 = q ++ [x] := by
  refine ⟨?_, rfl, rfl, rfl⟩
  unfold put_event put_nowait
  by_cases h : maxsize ≤ q.length
  · simp [h]
  · simp [h]

/-- Counterexample to claim C9.  `int(dt.timestamp())` truncates toward
zero, so for a datetime half a second before the epoch
(1969-12-31T23:59:59.500000Z, i.e. -500000 microseconds) and a 60-second
interval the computed interval start is the epoch itself, which exceeds the
input time: the result is not the greatest multiple of the interval not
exceeding the input. -/
theorem C9_counterexample :
    truncate_datetime (-500000) 60 = 0 ∧
    ¬ truncate_datetime (-500000) 60 ≤ (-500000 : Int) := by
  refine ⟨by decide, by decide⟩

/-- Claim C9 corrected: for every datetime at or after the Unix epoch and
every positive whole-second interval length I, the truncated timestamp is an
exact integer multiple of I seconds (I * 1000000 microseconds), does not
exceed the input time, and is the greatest such multiple not exceeding it.
(For datetimes strictly before the epoch the greatest-multiple property can
fail, as the counterexample shows.) -/
theorem C9_truncation_aligned (m I : Int) (hm : 0 ≤ m) (hI : 0 < I) :
    (∃ k : Int, truncate_datetime m I = k * (I * 1000000)) ∧
    truncate_datetime m I ≤ m ∧
    (∀ k : Int, k * (I * 1000000) ≤ m → k * (I * 1000000) ≤ truncate_datetime m I) := by
  have hIne : I ≠ 0 := by omega
  have hM : (0 : Int) < 1000000 := by norm_num
  have hgoal : truncate_datetime m I = (m / 1000000 - (m / 1000000) % I) * 1000000 := by
    unfold truncate_datetime
    rw [if_neg (by omega : ¬ I ≤ 0), Int.tdiv_eq_ediv hm (by norm_num)]
  set t := m / 1000000 with ht
  have htmod : t - t % I = I * (t / I) := by
    have := Int.ediv_add_emod t I
    omega
  refine ⟨⟨t / I, by rw [hgoal, htmod]; ring⟩, ?_, ?_⟩
  · rw [hgoal]
    have h1 : t - t % I ≤ t := by
      have := Int.emod_nonneg t hIne
      omega
    have h2 : t * 1000000 ≤ m := Int.ediv_mul_le m (by norm_num)
    calc (t - t % I) * 1000000 ≤ t * 1000000 :=
          mul_le_mul_of_nonneg_right h1 (by norm_num)
      _ ≤ m := h2
  · intro k hk
    rw [hgoal, htmod]
    have hkt : k * I ≤ t := by
      rw [ht, Int.le_ediv_iff_mul_le hM]
      calc k * I * 1000000 = k * (I * 1000000) := by ring
        _ ≤ m := hk
    have hkdiv : k ≤ t / I := by
      rw [Int.le_ediv_iff_mul_le hI]
      exact hkt
    calc k * (I * 1000000) = (k * I) * 1000000 := by ring
      _ ≤ (I * (t / I)) * 1000000 := by
          apply mul_le_mul_of_nonneg_right _ (by norm_num)
          calc k * I ≤ (t / I) * I := mul_le_mul_of_nonneg_right hkdiv (le_of_lt hI)
            _ = I * (t / I) := mul_comm _ _

/-- Witness for the corrected claim C9 at a concrete input: 125 seconds
after the epoch truncates to 120 seconds with a 60-second interval. -/
theorem C9_witness :
    (0 : Int) ≤ 125000000 ∧ (0 : Int) < 60 ∧
    ((∃ k : Int, truncate_datetime 125000000 60 = k * (60 * 1000000)) ∧
    truncate_datetime 125000000 60 ≤ 125000000 ∧
    (∀ k : Int, k * (60 * 1000000) ≤ 125000000 →
      k * (60 * 1000000) ≤ truncate_datetime 125000000 60)) :=
  ⟨by decide, by decide, C9_truncation_aligned 125000000 60 (by decide) (by decide)⟩

/-- Claim C6: `add_attributes` restores the prior task-scoped attribute map
on every exit path.  The callback runs against the merged store, its result
or exception is passed through unchanged, and the store observed by
`get_attributes` after the call is exactly the store from before the call —
both when a callback is given (whatever it returns or raises, and however it
mutates the store) and when none is. -/
theorem C6_attribute_scope_restored {α : Type} (attrs : PyDict) (s0 : Store)
    (f : Store → Except PyExn α × Store) :
    get_attributes (add_attributes_run attrs (Option.some f) s0).2 = get_attributes s0 ∧
    (add_attributes_run attrs (Option.some f) s0).2 = s0 ∧
    (add_attributes_run (α := α) attrs Option.none s0).2 = s0 ∧
    (add_attributes_run attrs (Option.some f) s0).1 =
      (f (dict_update s0 attrs)).1.map Option.some := by
  refine ⟨rfl, rfl, rfl, rfl⟩

/-- Claim C4: the attribute map attached to a dispatched log is the merge of
the call-site attributes, the task-scoped context attributes (which win on
key conflicts) and a forced `service.name` entry carrying the configured
instance name; the result contains only string keys and string values, and
every non-string entry of either input map is dropped silently.  The lookup
of any key other than `service.name` in the result is characterized exactly:
it returns a value precisely when key and value are strings and the value
comes from the context map, or from the call-site map for keys absent from
the context. -/
theorem C4_log_attribute_merge (name : String) (attrs : PyDict) (store : Store)
    (h1 : alist_nodup attrs) (h2 : alist_nodup store) :
    (∀ p ∈ send_log_attributes name attrs store,
      p.1.is_str = true ∧ p.2.is_str = true) ∧
    alist_get (PyVal.str "service.name") (send_log_attributes name attrs store) =
      Option.some (PyVal.str name) ∧
    (∀ k v, k ≠ PyVal.str "service.name" →
      (alist_get k (send_log_attributes name attrs store) = Option.some v ↔
        (k.is_str = true ∧ v.is_str = true ∧
          (alist_get k store = Option.some v ∨
            (alist_get k store = Option.none ∧
              alist_get k attrs = Option.some v))))) := by
  have hmerged : alist_nodup (dict_update attrs store) := alist_nodup_update store h1
  have hmerged2 : alist_nodup
      (alist_set (PyVal.str "service.name") (PyVal.str name) (dict_update attrs store)) :=
    alist_nodup_set _ _ hmerged
  have hunfold : send_log_attributes name attrs store =
      (alist_set (PyVal.str "service.name") (PyVal.str name)
        (dict_update attrs store)).filter
        (fun p => p.1.is_str && p.2.is_str) := rfl
  refine ⟨?_, ?_, ?_⟩
  · intro p hp
    have hpred := (List.mem_filter.mp (hunfold ▸ hp)).2
    simp only [Bool.and_eq_true] at hpred
    exact hpred
  · rw [hunfold, alist_get_filter _ _ hmerged2, alist_get_set_self]
    rfl
  · intro k v hk
    rw [hunfold, alist_get_filter _ _ hmerged2, alist_get_set_ne _ _ hk,
      alist_get_update k attrs h2]
    cases hc : alist_get k store with
    | some w =>
      simp only [Option.elim, Option.bind]
      constructor
      · intro h
        by_cases hpred : (k.is_str && w.is_str) = true
        · rw [if_pos hpred] at h
          have hw : w = v := by simpa using h
          subst hw
          simp only [Bool.and_eq_true] at hpred
          exact ⟨hpred.1, hpred.2, Or.inl rfl⟩
        · rw [if_neg hpred] at h
          exact absurd h (by simp)
      · rintro ⟨hks, hvs, hv | hv⟩
        · have hw : w = v := by simpa using hv
          subst hw
          rw [if_pos (by simp [hks, hvs])]
        · exact absurd hv.1 (by simp)
    | none =>
      simp only [Option.elim]
      cases ha : alist_get k attrs with
      | some u =>
        simp only [Option.bind]
        constructor
        · intro h
          by_cases hpred : (k.is_str && u.is_str) = true
          · rw [if_pos hpred] at h
            have hu : u = v := by simpa using h
            subst hu
            simp only [Bool.and_eq_true] at hpred
            exact ⟨hpred.1, hpred.2, Or.inr ⟨by trivial, rfl⟩⟩
          · rw [if_neg hpred] at h
            exact absurd h (by simp)
        · rintro ⟨hks, hvs, hv | hv⟩
          · exact absurd hv (by simp)
          · have hu : u = v := by simpa using hv.2
            subst hu
            rw [if_pos (by simp [hks, hvs])]
      | none =>
        simp only [Option.bind]
        constructor
        · intro h
          exact absurd h (by simp)
        · rintro ⟨_, _, hv | hv⟩
          · exact absurd hv (by simp)
          · exact absurd hv.2 (by simp)

/-- Witness for claim C4 at a concrete input: the call-site map carries a
string entry, a non-string key and a non-string value; the context carries a
conflicting string entry; the result keeps the context value, keeps only
string entries, and forces `service.name`. -/
theorem C4_witness :
    alist_nodup
      ([(PyVal.str "user", PyVal.str "1"), (PyVal.int 7, PyVal.str "x"),
        (PyVal.str "b", PyVal.int 0)] : PyDict) ∧
    alist_nodup
      ([(PyVal.str "task", PyVal.str "t"), (PyVal.str "user", PyVal.str "2")] : PyDict) ∧
    ((∀ p ∈ send_log_attributes "svc"
        [(PyVal.str "user", PyVal.str "1"), (PyVal.int 7, PyVal.str "x"),
          (PyVal.str "b", PyVal.int 0)]
        [(PyVal.str "task", PyVal.str "t"), (PyVal.str "user", PyVal.str "2")],
      p.1.is_str = true ∧ p.2.is_str = true) ∧
    alist_get (PyVal.str "service.name")
        (send_log_attributes "svc"
          [(PyVal.str "user", PyVal.str "1"), (PyVal.int 7, PyVal.str "x"),
            (PyVal.str "b", PyVal.int 0)]
          [(PyVal.str "task", PyVal.str "t"), (PyVal.str "user", PyVal.str "2")]) =
      Option.some (PyVal.str "svc") ∧
    (∀ k v, k ≠ PyVal.str "service.name" →
      (alist_get k (send_log_attributes "svc"
          [(PyVal.str "user", PyVal.str "1"), (PyVal.int 7, PyVal.str "x"),
            (PyVal.str "b", PyVal.int 0)]
          [(PyVal.str "task", PyVal.str "t"), (PyVal.str "user", PyVal.str "2")]) =
          Option.some v ↔
        (k.is_str = true ∧ v.is_str = true ∧
          (alist_get k [(PyVal.str "task", PyVal.str "t"),
              (PyVal.str "user", PyVal.str "2")] = Option.some v ∨
            (alist_get k [(PyVal.str "task", PyVal.str "t"),
                (PyVal.str "user", PyVal.str "2")] = Option.none ∧
              alist_get k [(PyVal.str "user", PyVal.str "1"),
                (PyVal.int 7, PyVal.str "x"),
                (PyVal.str "b", PyVal.int 0)] = Option.some v)))))) :=
  ⟨by decide, by decide,
    C4_log_attribute_merge "svc"
      [(PyVal.str "user", PyVal.str "1"), (PyVal.int 7, PyVal.str "x"),
        (PyVal.str "b", PyVal.int 0)]
      [(PyVal.str "task", PyVal.str "t"), (PyVal.str "user", PyVal.str "2")]
      (by decide) (by decide)⟩

end VigilantSpec
